import Mathlib

/-!
Shallow embedding of `semverpp/version.hpp`

The header defines one value type, `semverpp::version`, with

* five constructors from raw values, each of which runs `verify()`;
* a constructor from text (`std::string_view`), a hand-written scanner over a
  `const char*` cursor named `curr`;
* `string()`, the canonical rendering;
* `operator==`, `operator!=` and the four ordering operators, the latter all
  instances of the template `compare_versions_with<Comp>`.

Modelling choices.

* `int` is `Int`; the only place where the width of `int` matters is
  `std::from_chars`, which leaves its output untouched when the digits do not fit.
* `std::string` / `std::string_view` are `List Char`.  The character array behind a
  text `s` is `s` followed by one terminating NUL: position `s.length` reads as NUL,
  any position after that lies outside the array.  A read outside the array is
  undefined behaviour in C++; the embedding reports it as the distinguished outcome
  `failure.read_outside_text`.
* `std::isdigit` and `std::isalnum` are taken in the "C" locale: `Char.isDigit`,
  `Char.isAlphanum`.
* An exception `invalid_version` is an `Except` error.  The message text is not
  reproduced; each distinct message of the header is one constructor.
-/

namespace semverpp

/-! ## Data model -/

/-- Tag carrier `semverpp::prerelease` (version.hpp:13-16). -/
structure prerelease where
  value : List Char
deriving DecidableEq, Repr

/-- Tag carrier `semverpp::build_metadata` (version.hpp:21-24). -/
structure build_metadata where
  value : List Char
deriving DecidableEq, Repr

/-- The exception `semverpp::invalid_version` (version.hpp:29-33): one constructor for each
message the header throws it with. -/
inductive invalid_version where
  /-- Message ": failed to parse major version number" (line 87). -/
  | failed_major
  /-- Message ": invalid separator" (lines 92 and 100). -/
  | invalid_separator
  /-- Message ": failed to parse minor version number" (line 95). -/
  | failed_minor
  /-- Message ": failed to parse patch version number" (line 103). -/
  | failed_patch
  /-- Message ": version cannot be null" (line 169). -/
  | null_version
  /-- Message ": major version must be >= 0" (line 172). -/
  | major_negative
  /-- Message ": minor version must be >= 0" (line 175). -/
  | minor_negative
  /-- Message ": patch version must be >= 0" (line 178). -/
  | patch_negative
  /-- Message ": prerelease version contains invalid character" (line 182). -/
  | prerelease_character (c : Char)
  /-- Message ": build metadata contains invalid character" (line 186). -/
  | build_metadata_character (c : Char)
deriving DecidableEq, Repr

/-- Ways in which the constructor from text can end without a version. -/
inductive failure where
  /-- The constructor threw `invalid_version`. -/
  | thrown (e : invalid_version)
  /-- The cursor was dereferenced outside the character array (undefined behaviour). -/
  | read_outside_text
deriving DecidableEq, Repr

deriving instance DecidableEq for Except

/-- The struct `semverpp::version` (version.hpp:35-44). -/
structure version where
  major : Int
  minor : Int
  patch : Int
  prerelease : List Char
  build_metadata : List Char
deriving DecidableEq, Repr

/-! ## Formatter: `version::string` -/

/-- The library function `std::to_string(int)`: decimal digits, with a leading minus sign for a
negative value. -/
def to_string (n : Int) : List Char :=
  if n < 0 then '-' :: Nat.toDigits 10 n.natAbs else Nat.toDigits 10 n.toNat

/-- The member `version::string()` (version.hpp:141-164). -/
def version.string (v : version) : List Char :=
  let result : List Char := []
  let result := result ++ to_string v.major
  let result := result ++ ['.']
  let result := result ++ to_string v.minor
  let result := result ++ ['.']
  let result := result ++ to_string v.patch
  let result := if !v.prerelease.isEmpty then (result ++ ['-']) ++ v.prerelease else result
  let result := if !v.build_metadata.isEmpty then (result ++ ['+']) ++ v.build_metadata else result
  result

/-! ## Validator: `version::verify` -/

/-- The test `!std::isalnum(c) && c != '-' && c != '.'` of both loops of `verify`. -/
def illegal_character (c : Char) : Bool :=
  !c.isAlphanum && c != '-' && c != '.'

/-- The member `version::verify()` (version.hpp:166-187); each loop throws at the first
character that fails the test. -/
def version.verify (v : version) : Except invalid_version Unit :=
  if v.major == 0 && v.minor == 0 && v.patch == 0 then
    .error .null_version
  else if v.major < 0 then
    .error .major_negative
  else if v.minor < 0 then
    .error .minor_negative
  else if v.patch < 0 then
    .error .patch_negative
  else
    match v.prerelease.find? illegal_character with
    | some c => .error (.prerelease_character c)
    | none =>
      match v.build_metadata.find? illegal_character with
      | some c => .error (.build_metadata_character c)
      | none => .ok ()

/-! ## Constructors from raw values (version.hpp:46-70) -/

/-- The constructor `version(int, int, int)` (lines 46-48). -/
def version.of_numbers (major minor patch : Int) : Except invalid_version version :=
  let v : version := ⟨major, minor, patch, [], []⟩
  match v.verify with
  | .error e => .error e
  | .ok () => .ok v

/-- The constructor `version(int, int, int, prerelease&&)` (lines 52-54). -/
def version.of_prerelease (major minor patch : Int) (pre : semverpp.prerelease) :
    Except invalid_version version :=
  let v : version := ⟨major, minor, patch, pre.value, []⟩
  match v.verify with
  | .error e => .error e
  | .ok () => .ok v

/-- The constructor `version(int, int, int, build_metadata&&)` (lines 58-60). -/
def version.of_build_metadata (major minor patch : Int) (build : semverpp.build_metadata) :
    Except invalid_version version :=
  let v : version := ⟨major, minor, patch, [], build.value⟩
  match v.verify with
  | .error e => .error e
  | .ok () => .ok v

/-- The constructor `version(int, int, int, prerelease&&, build_metadata&&)` (lines 64-66). -/
def version.of_prerelease_build_metadata (major minor patch : Int) (pre : semverpp.prerelease)
    (build : semverpp.build_metadata) : Except invalid_version version :=
  let v : version := ⟨major, minor, patch, pre.value, build.value⟩
  match v.verify with
  | .error e => .error e
  | .ok () => .ok v

/-- The constructor `version(int, int, int, build_metadata&&, prerelease&&)` (lines 68-70). -/
def version.of_build_metadata_prerelease (major minor patch : Int) (build : semverpp.build_metadata)
    (pre : semverpp.prerelease) : Except invalid_version version :=
  let v : version := ⟨major, minor, patch, pre.value, build.value⟩
  match v.verify with
  | .error e => .error e
  | .ok () => .ok v

/-! ## Parser: `version::version(std::string_view)` -/

/-- The terminating character of the array behind a text. -/
def NUL : Char := Char.ofNat 0

/-- Dereference `*(string.data() + i)`: a character of the text, the terminating NUL at
position `s.length`, and a read outside the array beyond that. -/
def peek (s : List Char) (i : Nat) : Except failure Char :=
  match s.get? i with
  | some c => .ok c
  | none => if i = s.length then .ok NUL else .error .read_outside_text

/-- The loop `while (!std::isdigit(*curr)) curr++;` (lines 79-80).  The first argument is the
text from `curr` on.  At the end of the text `*curr` is the terminating NUL, which is not a
digit, so the cursor steps past it and the next dereference is outside the array. -/
def skip_non_digits : List Char → Nat → Except failure Nat
  | [], _ => .error .read_outside_text
  | c :: rest, curr => if c.isDigit then .ok curr else skip_non_digits rest (curr + 1)

/-- Largest value of `int` (32 bits). -/
def INT_MAX : Int := 2147483647

/-- Smallest value of `int` (32 bits). -/
def INT_MIN : Int := -2147483648

/-- Value of a decimal digit run, most significant digit first. -/
def digits_value (ds : List Char) : Int :=
  ds.foldl (fun acc c => 10 * acc + ((c.toNat - 48 : Nat) : Int)) 0

/-- The library function `std::from_chars(first, last, value)` for `int`, base 10, on the
characters `[first, last)` of `s`.  The pattern is an optional minus sign followed by a
non-empty digit run.  The result is the returned `ptr` and the content of `value` afterwards:
without a match `ptr = first` and `value` is untouched; with a match `ptr` is the position
after the digit run and `value` is assigned unless the number is out of range for `int`. -/
def from_chars (s : List Char) (first last : Nat) (value : Int) : Nat × Int :=
  let range := (s.take last).drop first
  let negative := range.head? == some '-'
  let body := if negative then range.drop 1 else range
  let digits := body.takeWhile Char.isDigit
  if digits.isEmpty then
    (first, value)
  else
    let n := if negative then - digits_value digits else digits_value digits
    let ptr := first + (if negative then 1 else 0) + digits.length
    if INT_MIN ≤ n ∧ n ≤ INT_MAX then (ptr, n) else (ptr, value)

/-- The condition `*(curr + 1) && std::isdigit(*(curr + 2))` (lines 89 and 97), with the
short-circuit of `&&`. -/
def continuation (s : List Char) (curr : Nat) : Except failure Bool :=
  match peek s (curr + 1) with
  | .error e => .error e
  | .ok c1 =>
    if c1 = NUL then .ok false
    else
      match peek s (curr + 2) with
      | .error e => .error e
      | .ok c2 => .ok c2.isDigit

/-- The numeric fields and the cursor after lines 76-105. -/
structure numbers where
  major : Int
  minor : Int
  patch : Int
  curr : Nat
deriving DecidableEq, Repr

/-- Lines 97-104: the inner `if`, entered with `curr` on the first digit of the minor number.
In `(result = std::from_chars(++curr, end, patch)).ptr == curr` the right-hand `curr` is read
after the increment. -/
def parse_patch (s : List Char) (last : Nat) (major minor : Int) (curr : Nat) :
    Except failure numbers :=
  match continuation s curr with
  | .error e => .error e
  | .ok false => .ok ⟨major, minor, 0, curr⟩
  | .ok true =>
    let curr := curr + 1
    match peek s curr with
    | .error e => .error e
    | .ok c =>
      if c != '.' then .error (.thrown .invalid_separator)
      else
        let curr := curr + 1
        let result := from_chars s curr last 0
        if result.1 = curr then .error (.thrown .failed_patch)
        else .ok ⟨major, minor, result.2, curr⟩

/-- Lines 89-105: the outer `if`, entered with `curr` on the first digit of the major number
and `minor` as left by line 86. -/
def parse_minor (s : List Char) (last : Nat) (major minor : Int) (curr : Nat) :
    Except failure numbers :=
  match continuation s curr with
  | .error e => .error e
  | .ok false => .ok ⟨major, minor, 0, curr⟩
  | .ok true =>
    let curr := curr + 1
    match peek s curr with
    | .error e => .error e
    | .ok c =>
      if c != '.' then .error (.thrown .invalid_separator)
      else
        let curr := curr + 1
        let result := from_chars s curr last minor
        if result.1 = curr then .error (.thrown .failed_minor)
        else parse_patch s last major result.2 curr

/-- Lines 76-105.  Line 84 converts the digits at `curr` into `major`; line 86 converts the
same digits again, into `minor`, and compares the returned `ptr` with `curr`.  The cursor is
not moved by either conversion. -/
def parse_numbers (s : List Char) : Except failure numbers :=
  match skip_non_digits s 0 with
  | .error e => .error e
  | .ok curr =>
    let last := s.length
    let major := (from_chars s curr last 0).2
    let result := from_chars s curr last 0
    let minor := result.2
    if result.1 = curr then .error (.thrown .failed_major)
    else parse_minor s last major minor curr

/-- The prerelease and build-metadata texts collected by lines 109-131. -/
structure tags where
  prerelease : List Char
  build_metadata : List Char
deriving DecidableEq, Repr

/-- Lines 121-131: the build-metadata block.  The loop `while (*meta_end != 0) meta_end++`
stops at the first NUL, at the latest at the terminator. -/
def parse_build_metadata (s : List Char) (pre : List Char) (curr : Nat) :
    Except failure tags :=
  match peek s curr with
  | .error e => .error e
  | .ok c =>
    if c == '+' then
      let curr := curr + 1
      .ok ⟨pre, (s.drop curr).takeWhile (fun c => c != NUL)⟩
    else .ok ⟨pre, []⟩

/-- Lines 109-131: the prerelease block followed by the build-metadata block.  The loop
`while (*prerel_end != 0 && *prerel_end != '+') prerel_end++` stops at the first NUL or `+`. -/
def parse_tags (s : List Char) (curr : Nat) : Except failure tags :=
  match peek s curr with
  | .error e => .error e
  | .ok c =>
    if c == '-' then
      let curr := curr + 1
      let pre := (s.drop curr).takeWhile (fun c => c != NUL && c != '+')
      let prerel_end := curr + pre.length
      parse_build_metadata s pre prerel_end
    else parse_build_metadata s [] curr

/-- The constructor `version(std::string_view)` (version.hpp:74-134). -/
def version.of_text (s : List Char) : Except failure version :=
  match parse_numbers s with
  | .error e => .error e
  | .ok n =>
    let curr := n.curr + 1
    match parse_tags s curr with
    | .error e => .error e
    | .ok t =>
      let v : version := ⟨n.major, n.minor, n.patch, t.prerelease, t.build_metadata⟩
      match v.verify with
      | .error e => .error (.thrown e)
      | .ok () => .ok v

/-! ## Comparator -/

/-- The function `operator==` (version.hpp:190-198). -/
def operator_eq (lhs rhs : version) : Bool :=
  lhs.major == rhs.major &&
  lhs.minor == rhs.minor &&
  lhs.patch == rhs.patch &&
  lhs.prerelease == rhs.prerelease

/-- The function `operator!=` (version.hpp:200-203). -/
def operator_ne (lhs rhs : version) : Bool :=
  !(operator_eq lhs rhs)

/-- The library function `std::string_view::compare`: the first differing character decides,
and a proper prefix is smaller. -/
def string_view_compare : List Char → List Char → Ordering
  | [], [] => .eq
  | [], _ :: _ => .lt
  | _ :: _, [] => .gt
  | a :: as, b :: bs =>
    if a < b then .lt else if b < a then .gt else string_view_compare as bs

/-- The template template parameter `Comp`: the two instances `Comp<int>` and
`Comp<std::string_view>` that `compare_versions_with` builds. -/
structure Comp where
  num : Int → Int → Bool
  str : List Char → List Char → Bool

/-- The functor `std::greater`. -/
def greater : Comp :=
  ⟨fun a b => decide (a > b), fun a b => string_view_compare a b == .gt⟩

/-- The functor `std::greater_equal`. -/
def greater_equal : Comp :=
  ⟨fun a b => decide (a ≥ b), fun a b => string_view_compare a b != .lt⟩

/-- The functor `std::less`. -/
def less : Comp :=
  ⟨fun a b => decide (a < b), fun a b => string_view_compare a b == .lt⟩

/-- The functor `std::less_equal`. -/
def less_equal : Comp :=
  ⟨fun a b => decide (a ≤ b), fun a b => string_view_compare a b != .gt⟩

/-- The template `compare_versions_with<Comp>` (version.hpp:205-229). -/
def compare_versions_with (comp : Comp) (lhs rhs : version) : Bool :=
  let comp_num := comp.num
  let comp_str := comp.str
  if comp_num lhs.major rhs.major then true
  else if lhs.major == rhs.major && comp_num lhs.minor rhs.minor then true
  else if lhs.major == rhs.major && lhs.minor == rhs.minor && comp_num lhs.patch rhs.patch then
    true
  else if comp_str lhs.prerelease rhs.prerelease then true
  else false

/-- The function `operator>` (version.hpp:231-234). -/
def operator_gt (lhs rhs : version) : Bool := compare_versions_with greater lhs rhs

/-- The function `operator>=` (version.hpp:236-239). -/
def operator_ge (lhs rhs : version) : Bool := compare_versions_with greater_equal lhs rhs

/-- The function `operator<` (version.hpp:241-244). -/
def operator_lt (lhs rhs : version) : Bool := compare_versions_with less lhs rhs

/-- The function `operator<=` (version.hpp:246-249). -/
def operator_le (lhs rhs : version) : Bool := compare_versions_with less_equal lhs rhs

/-! ## Specification-side definitions -/

/-- The order the specification words for `operator<`: the tuple
`(major, minor, patch, prerelease)` compared lexicographically, the numbers numerically and
the prerelease as a plain character string, consulted only when the three numbers agree. -/
def tuple_less (a b : version) : Bool :=
  decide (a.major < b.major) ||
  (decide (a.major = b.major) && decide (a.minor < b.minor)) ||
  (decide (a.major = b.major) && decide (a.minor = b.minor) && decide (a.patch < b.patch)) ||
  (decide (a.major = b.major) && decide (a.minor = b.minor) && decide (a.patch = b.patch) &&
    string_view_compare a.prerelease b.prerelease == .lt)

/-! ## Definitions used in the statements of the parser lemmas -/

/-- Position `i` of the text holds a decimal digit. -/
def at_digit (s : List Char) (i : Nat) : Prop :=
  ∃ d, s.get? i = some d ∧ d.isDigit = true

/-- The numeric section with the cursor one position further. -/
def numbers.advance (n : numbers) : numbers :=
  ⟨n.major, n.minor, n.patch, n.curr + 1⟩

/-- Value of one decimal digit, as `digits_value` computes it. -/
def digit_value (d : Char) : Int := ((d.toNat - 48 : Nat) : Int)

/-! ## Lemmas on the validator -/

theorem illegal_character_eq_false_iff (c : Char) :
    illegal_character c = false ↔ (c.isAlphanum = true ∨ c = '-' ∨ c = '.') := by
  unfold illegal_character
  by_cases h1 : c.isAlphanum = true <;> by_cases h2 : c = '-' <;> by_cases h3 : c = '.' <;>
    simp [h1, h2, h3]

theorem find_illegal_eq_none_iff (l : List Char) :
    l.find? illegal_character = none ↔
      ∀ c ∈ l, (c.isAlphanum = true ∨ c = '-' ∨ c = '.') := by
  rw [List.find?_eq_none]
  constructor
  · intro h c hc
    have := h c hc
    exact (illegal_character_eq_false_iff c).1 (by simpa using this)
  · intro h c hc
    have := (illegal_character_eq_false_iff c).2 (h c hc)
    simp [this]

/-- The validator accepts a value exactly when the numbers are not all zero, none is negative,
and both texts consist of alphanumerics, `-` and `.` only. -/
theorem verify_eq_ok_iff (v : version) :
    v.verify = .ok () ↔
      (¬ (v.major = 0 ∧ v.minor = 0 ∧ v.patch = 0) ∧ 0 ≤ v.major ∧ 0 ≤ v.minor ∧ 0 ≤ v.patch ∧
        (∀ c ∈ v.prerelease, (c.isAlphanum = true ∨ c = '-' ∨ c = '.')) ∧
        (∀ c ∈ v.build_metadata, (c.isAlphanum = true ∨ c = '-' ∨ c = '.'))) := by
  rw [← find_illegal_eq_none_iff, ← find_illegal_eq_none_iff]
  unfold version.verify
  by_cases hz : v.major = 0 ∧ v.minor = 0 ∧ v.patch = 0
  · obtain ⟨h1, h2, h3⟩ := hz
    simp [h1, h2, h3]
  · have hz2 : (v.major == 0 && v.minor == 0 && v.patch == 0) = false := by
      by_cases a1 : v.major = 0 <;> by_cases a2 : v.minor = 0 <;> by_cases a3 : v.patch = 0 <;>
        simp_all
    simp only [hz2, Bool.false_eq_true, if_false]
    by_cases h1 : v.major < 0
    · simp only [h1, if_true]
      constructor
      · intro h; cases h
      · intro h; omega
    · by_cases h2 : v.minor < 0
      · simp only [h1, h2, if_true, if_false]
        constructor
        · intro h; cases h
        · intro h; omega
      · by_cases h3 : v.patch < 0
        · simp only [h1, h2, h3, if_true, if_false]
          constructor
          · intro h; cases h
          · intro h; omega
        · simp only [h1, h2, h3, if_false]
          cases hp : v.prerelease.find? illegal_character with
          | some c => simp
          | none =>
            cases hb : v.build_metadata.find? illegal_character with
            | some c => simp
            | none =>
              simp only [and_true, true_iff]
              exact ⟨hz, by omega, by omega, by omega⟩

/-- The validator either accepts or throws. -/
theorem verify_error_iff (v : version) :
    (∃ e, v.verify = .error e) ↔ v.verify ≠ .ok () := by
  cases h : v.verify with
  | error e => simp
  | ok u => cases u; simp

/-! ## Lemmas on the comparator -/

theorem string_view_compare_nil_left (pre : List Char) (h : pre ≠ []) :
    string_view_compare [] pre = .lt := by
  cases pre with
  | nil => exact absurd rfl h
  | cons c cs => rfl

theorem string_view_compare_nil_right (pre : List Char) (h : pre ≠ []) :
    string_view_compare pre [] = .gt := by
  cases pre with
  | nil => exact absurd rfl h
  | cons c cs => rfl

theorem ordering_beq_iff (o r : Ordering) : (o == r) = true ↔ o = r := by
  cases o <;> cases r <;> decide

theorem ordering_bne_iff (o r : Ordering) : (o != r) = true ↔ o ≠ r := by
  cases o <;> cases r <;> decide

/-- What `compare_versions_with<std::less>` computes: the three gated number tests and the
ungated prerelease test, joined by "or". -/
theorem operator_lt_eq_true_iff (a b : version) :
    operator_lt a b = true ↔
      (a.major < b.major ∨ (a.major = b.major ∧ a.minor < b.minor) ∨
        (a.major = b.major ∧ a.minor = b.minor ∧ a.patch < b.patch) ∨
        string_view_compare a.prerelease b.prerelease = .lt) := by
  unfold operator_lt compare_versions_with less
  by_cases h1 : a.major < b.major
  · simp [h1]
  · by_cases h2 : a.major = b.major ∧ a.minor < b.minor
    · simp [h2.1, h2.2]
    · by_cases h3 : a.major = b.major ∧ a.minor = b.minor ∧ a.patch < b.patch
      · simp [h3.1, h3.2.1, h3.2.2]
      · by_cases e1 : a.major = b.major <;> by_cases e2 : a.minor = b.minor <;>
          simp_all [ordering_beq_iff]

/-- What `compare_versions_with<std::greater>` computes: the three gated number tests and the
ungated prerelease test, joined by "or". -/
theorem operator_gt_eq_true_iff (a b : version) :
    operator_gt a b = true ↔
      (a.major > b.major ∨ (a.major = b.major ∧ a.minor > b.minor) ∨
        (a.major = b.major ∧ a.minor = b.minor ∧ a.patch > b.patch) ∨
        string_view_compare a.prerelease b.prerelease = .gt) := by
  unfold operator_gt compare_versions_with greater
  by_cases h1 : a.major > b.major
  · simp [h1]
  · by_cases h2 : a.major = b.major ∧ a.minor > b.minor
    · simp [h2.1, h2.2]
    · by_cases h3 : a.major = b.major ∧ a.minor = b.minor ∧ a.patch > b.patch
      · simp [h3.1, h3.2.1, h3.2.2]
      · by_cases e1 : a.major = b.major <;> by_cases e2 : a.minor = b.minor <;>
          simp_all [ordering_beq_iff]

/-! ## The claims -/

/-- C1 (defect in the code): the value 10.0.0 passes `verify` and renders as "10.0.0", but the
constructor from text reads that rendering back as 10.10.0, which `operator==` distinguishes
from 10.0.0.  The cursor is never moved past a number of more than one digit, and line 86
stores the major digits into `minor`. -/
theorem C1_round_trip_breaks_on_two_digit_major :
    version.verify ⟨10, 0, 0, [], []⟩ = .ok () ∧
      version.string ⟨10, 0, 0, [], []⟩ = ['1', '0', '.', '0', '.', '0'] ∧
      version.of_text (version.string ⟨10, 0, 0, [], []⟩) = .ok ⟨10, 10, 0, [], []⟩ ∧
      operator_eq ⟨10, 10, 0, [], []⟩ ⟨10, 0, 0, [], []⟩ = false := by
  decide

/-- C2 (defect in the code): the text "release-1.12.1-alpha.3.foo+buildnum19483824028" of the
test `OverallBehavior` is read as 1.12.0 with empty prerelease and build metadata, so `patch`
is 0 where the test expects 1. -/
theorem C2_release_text_parses_with_patch_zero :
    version.of_text "release-1.12.1-alpha.3.foo+buildnum19483824028".toList =
      .ok ⟨1, 12, 0, [], []⟩ := by
  decide

/-- C3 (defect in the code): for the valid versions 2.0.0-alpha and 1.0.0-beta, `operator<`
answers true although the tuple (2, 0, 0, "alpha") is not lexicographically less than
(1, 0, 0, "beta"); the prerelease test of `compare_versions_with` is not gated on equal
numbers. -/
theorem C3_operator_lt_is_not_lexicographic :
    version.verify ⟨2, 0, 0, "alpha".toList, []⟩ = .ok () ∧
      version.verify ⟨1, 0, 0, "beta".toList, []⟩ = .ok () ∧
      operator_lt ⟨2, 0, 0, "alpha".toList, []⟩ ⟨1, 0, 0, "beta".toList, []⟩ = true ∧
      tuple_less ⟨2, 0, 0, "alpha".toList, []⟩ ⟨1, 0, 0, "beta".toList, []⟩ = false := by
  decide

/-- C4 (counterexample): it is not the case that every release compares greater than its
pre-releases; 1.2.3 is not `operator>` 1.2.3-alpha. -/
theorem C4_release_is_not_greater_than_prerelease :
    ¬ ∀ (M m p : Int) (pre : List Char),
        version.verify ⟨M, m, p, pre, []⟩ = .ok () → pre ≠ [] →
        operator_gt ⟨M, m, p, [], []⟩ ⟨M, m, p, pre, []⟩ = true ∧
          operator_lt ⟨M, m, p, pre, []⟩ ⟨M, m, p, [], []⟩ = true := by
  intro h
  have h1 := (h 1 2 3 "alpha".toList (by decide) (by decide)).1
  revert h1
  decide

/-- C4 (amended): with equal major, minor and patch, a version with empty prerelease is
`operator<` a version with non-empty prerelease and is not `operator>` it; the version with
the prerelease is `operator>` the one without and is not `operator<` it. -/
theorem C4_release_sorts_before_prerelease (a b : version)
    (hmajor : a.major = b.major) (hminor : a.minor = b.minor) (hpatch : a.patch = b.patch)
    (ha : a.prerelease = []) (hb : b.prerelease ≠ []) :
    operator_lt a b = true ∧ operator_gt a b = false ∧
      operator_gt b a = true ∧ operator_lt b a = false := by
  have e1 := string_view_compare_nil_left b.prerelease hb
  have e2 := string_view_compare_nil_right b.prerelease hb
  refine ⟨?_, ?_, ?_, ?_⟩
  · rw [operator_lt_eq_true_iff, ha, e1]; simp
  · rw [Bool.eq_false_iff, Ne, operator_gt_eq_true_iff, ha, e1]
    intro h
    rcases h with h | h | h | h
    · omega
    · omega
    · omega
    · cases h
  · rw [operator_gt_eq_true_iff, ha, e2]; simp
  · rw [Bool.eq_false_iff, Ne, operator_lt_eq_true_iff, ha, e2]
    intro h
    rcases h with h | h | h | h
    · omega
    · omega
    · omega
    · cases h

/-- C4 (amended), at 1.2.3 and 1.2.3-alpha. -/
theorem C4_release_sorts_before_prerelease_witness :
    operator_lt ⟨1, 2, 3, [], []⟩ ⟨1, 2, 3, "alpha".toList, []⟩ = true ∧
      operator_gt ⟨1, 2, 3, [], []⟩ ⟨1, 2, 3, "alpha".toList, []⟩ = false ∧
      operator_gt ⟨1, 2, 3, "alpha".toList, []⟩ ⟨1, 2, 3, [], []⟩ = true ∧
      operator_lt ⟨1, 2, 3, "alpha".toList, []⟩ ⟨1, 2, 3, [], []⟩ = false :=
  C4_release_sorts_before_prerelease ⟨1, 2, 3, [], []⟩ ⟨1, 2, 3, "alpha".toList, []⟩
    rfl rfl rfl rfl (by decide)

/-- C5: `operator==` is true exactly when major, minor, patch and prerelease agree; replacing
the build metadata of either side never changes its answer; `operator!=` is its negation. -/
theorem C5_equality (a b : version) :
    (operator_eq a b = true ↔
        (a.major = b.major ∧ a.minor = b.minor ∧ a.patch = b.patch ∧
          a.prerelease = b.prerelease)) ∧
      (∀ x y : List Char,
        operator_eq ⟨a.major, a.minor, a.patch, a.prerelease, x⟩
            ⟨b.major, b.minor, b.patch, b.prerelease, y⟩ = operator_eq a b) ∧
      operator_ne a b = !(operator_eq a b) := by
  refine ⟨?_, ?_, rfl⟩
  · unfold operator_eq
    simp [and_assoc]
  · intro x y
    rfl

/-- The validator accepts the five values exactly when none of the six conditions of rejection
holds. -/
theorem verify_eq_ok_iff_not_rejected (M m p : Int) (pre build : List Char) :
    version.verify ⟨M, m, p, pre, build⟩ = .ok () ↔
      ¬ ((M = 0 ∧ m = 0 ∧ p = 0) ∨ M < 0 ∨ m < 0 ∨ p < 0 ∨
        (∃ c ∈ pre, ¬ (c.isAlphanum = true ∨ c = '-' ∨ c = '.')) ∨
        (∃ c ∈ build, ¬ (c.isAlphanum = true ∨ c = '-' ∨ c = '.'))) := by
  rw [verify_eq_ok_iff ⟨M, m, p, pre, build⟩]
  constructor
  · rintro ⟨h0, h1, h2, h3, h4, h5⟩ hbad
    rcases hbad with h | h | h | h | ⟨c, hc, hcc⟩ | ⟨c, hc, hcc⟩
    · exact h0 h
    · exact absurd h1 (not_le.2 h)
    · exact absurd h2 (not_le.2 h)
    · exact absurd h3 (not_le.2 h)
    · exact hcc (h4 c hc)
    · exact hcc (h5 c hc)
  · intro hn
    refine ⟨fun hz => hn (.inl hz), ?_, ?_, ?_, ?_, ?_⟩
    · by_contra hc
      exact hn (.inr (.inl (by simpa using hc)))
    · by_contra hc
      exact hn (.inr (.inr (.inl (by simpa using hc))))
    · by_contra hc
      exact hn (.inr (.inr (.inr (.inl (by simpa using hc)))))
    · intro c hc
      by_contra hcc
      exact hn (.inr (.inr (.inr (.inr (.inl ⟨c, hc, hcc⟩)))))
    · intro c hc
      by_contra hcc
      exact hn (.inr (.inr (.inr (.inr (.inr ⟨c, hc, hcc⟩)))))

/-- The body shared by the five constructors from raw values: store the values, run `verify`,
and hand out the version unless `verify` threw. -/
theorem construct_outcome (v : version) (rejected : Prop)
    (h : v.verify = .ok () ↔ ¬ rejected) :
    ((∃ e, (match v.verify with
          | .error e => (Except.error e : Except invalid_version version)
          | .ok () => .ok v) = .error e) ↔ rejected) ∧
      ((match v.verify with
          | .error e => (Except.error e : Except invalid_version version)
          | .ok () => .ok v) = .ok v ↔ ¬ rejected) := by
  cases hv : v.verify with
  | error e =>
    have hne : ¬ (v.verify = .ok ()) := by rw [hv]; simp
    have hb : rejected := not_not.1 (fun hnr => hne (h.2 hnr))
    exact ⟨⟨fun _ => hb, fun _ => ⟨e, rfl⟩⟩, ⟨fun hk => (by cases hk), fun hk => absurd hb hk⟩⟩
  | ok u =>
    cases u
    have hb : ¬ rejected := h.1 hv
    exact ⟨⟨fun ⟨e, he⟩ => (by cases he), fun hk => absurd hk hb⟩, ⟨fun _ => hb, fun _ => rfl⟩⟩

/-- C6: each of the five constructors from raw values throws `invalid_version` exactly when
the three numbers are all zero, or one of them is negative, or a tag passed to it (prerelease,
build metadata) contains a character that is not alphanumeric, `-` or `.`; in every other
case it returns the version holding the values passed.  The constructor from three numbers
throws exactly on the number conditions, as the tests of `VersionNumberValueRange` expect. -/
theorem C6_validation_raises_iff (M m p : Int) (pre build : List Char) :
    ((∃ e, version.of_numbers M m p = .error e) ↔
        ((M = 0 ∧ m = 0 ∧ p = 0) ∨ M < 0 ∨ m < 0 ∨ p < 0)) ∧
      (version.of_numbers M m p = .ok ⟨M, m, p, [], []⟩ ↔
        ¬ ((M = 0 ∧ m = 0 ∧ p = 0) ∨ M < 0 ∨ m < 0 ∨ p < 0)) ∧
      ((∃ e, version.of_prerelease M m p ⟨pre⟩ = .error e) ↔
        ((M = 0 ∧ m = 0 ∧ p = 0) ∨ M < 0 ∨ m < 0 ∨ p < 0 ∨
          (∃ c ∈ pre, ¬ (c.isAlphanum = true ∨ c = '-' ∨ c = '.')))) ∧
      (version.of_prerelease M m p ⟨pre⟩ = .ok ⟨M, m, p, pre, []⟩ ↔
        ¬ ((M = 0 ∧ m = 0 ∧ p = 0) ∨ M < 0 ∨ m < 0 ∨ p < 0 ∨
          (∃ c ∈ pre, ¬ (c.isAlphanum = true ∨ c = '-' ∨ c = '.')))) ∧
      ((∃ e, version.of_build_metadata M m p ⟨build⟩ = .error e) ↔
        ((M = 0 ∧ m = 0 ∧ p = 0) ∨ M < 0 ∨ m < 0 ∨ p < 0 ∨
          (∃ c ∈ build, ¬ (c.isAlphanum = true ∨ c = '-' ∨ c = '.')))) ∧
      (version.of_build_metadata M m p ⟨build⟩ = .ok ⟨M, m, p, [], build⟩ ↔
        ¬ ((M = 0 ∧ m = 0 ∧ p = 0) ∨ M < 0 ∨ m < 0 ∨ p < 0 ∨
          (∃ c ∈ build, ¬ (c.isAlphanum = true ∨ c = '-' ∨ c = '.')))) ∧
      ((∃ e, version.of_prerelease_build_metadata M m p ⟨pre⟩ ⟨build⟩ = .error e) ↔
        ((M = 0 ∧ m = 0 ∧ p = 0) ∨ M < 0 ∨ m < 0 ∨ p < 0 ∨
          (∃ c ∈ pre, ¬ (c.isAlphanum = true ∨ c = '-' ∨ c = '.')) ∨
          (∃ c ∈ build, ¬ (c.isAlphanum = true ∨ c = '-' ∨ c = '.')))) ∧
      (version.of_prerelease_build_metadata M m p ⟨pre⟩ ⟨build⟩ = .ok ⟨M, m, p, pre, build⟩ ↔
        ¬ ((M = 0 ∧ m = 0 ∧ p = 0) ∨ M < 0 ∨ m < 0 ∨ p < 0 ∨
          (∃ c ∈ pre, ¬ (c.isAlphanum = true ∨ c = '-' ∨ c = '.')) ∨
          (∃ c ∈ build, ¬ (c.isAlphanum = true ∨ c = '-' ∨ c = '.')))) ∧
      ((∃ e, version.of_build_metadata_prerelease M m p ⟨build⟩ ⟨pre⟩ = .error e) ↔
        ((M = 0 ∧ m = 0 ∧ p = 0) ∨ M < 0 ∨ m < 0 ∨ p < 0 ∨
          (∃ c ∈ pre, ¬ (c.isAlphanum = true ∨ c = '-' ∨ c = '.')) ∨
          (∃ c ∈ build, ¬ (c.isAlphanum = true ∨ c = '-' ∨ c = '.')))) ∧
      (version.of_build_metadata_prerelease M m p ⟨build⟩ ⟨pre⟩ = .ok ⟨M, m, p, pre, build⟩ ↔
        ¬ ((M = 0 ∧ m = 0 ∧ p = 0) ∨ M < 0 ∨ m < 0 ∨ p < 0 ∨
          (∃ c ∈ pre, ¬ (c.isAlphanum = true ∨ c = '-' ∨ c = '.')) ∨
          (∃ c ∈ build, ¬ (c.isAlphanum = true ∨ c = '-' ∨ c = '.')))) := by
  have hnil : ¬ ∃ c ∈ ([] : List Char), ¬ (c.isAlphanum = true ∨ c = '-' ∨ c = '.') := by
    rintro ⟨c, hc, _⟩
    cases hc
  have h3 : version.verify ⟨M, m, p, [], []⟩ = .ok () ↔
      ¬ ((M = 0 ∧ m = 0 ∧ p = 0) ∨ M < 0 ∨ m < 0 ∨ p < 0) := by
    rw [verify_eq_ok_iff_not_rejected]
    apply not_congr
    constructor
    · rintro (h | h | h | h | h | h)
      · exact .inl h
      · exact .inr (.inl h)
      · exact .inr (.inr (.inl h))
      · exact .inr (.inr (.inr h))
      · exact absurd h hnil
      · exact absurd h hnil
    · rintro (h | h | h | h)
      · exact .inl h
      · exact .inr (.inl h)
      · exact .inr (.inr (.inl h))
      · exact .inr (.inr (.inr (.inl h)))
  have hP : version.verify ⟨M, m, p, pre, []⟩ = .ok () ↔
      ¬ ((M = 0 ∧ m = 0 ∧ p = 0) ∨ M < 0 ∨ m < 0 ∨ p < 0 ∨
        (∃ c ∈ pre, ¬ (c.isAlphanum = true ∨ c = '-' ∨ c = '.'))) := by
    rw [verify_eq_ok_iff_not_rejected]
    apply not_congr
    constructor
    · rintro (h | h | h | h | h | h)
      · exact .inl h
      · exact .inr (.inl h)
      · exact .inr (.inr (.inl h))
      · exact .inr (.inr (.inr (.inl h)))
      · exact .inr (.inr (.inr (.inr h)))
      · exact absurd h hnil
    · rintro (h | h | h | h | h)
      · exact .inl h
      · exact .inr (.inl h)
      · exact .inr (.inr (.inl h))
      · exact .inr (.inr (.inr (.inl h)))
      · exact .inr (.inr (.inr (.inr (.inl h))))
  have hB : version.verify ⟨M, m, p, [], build⟩ = .ok () ↔
      ¬ ((M = 0 ∧ m = 0 ∧ p = 0) ∨ M < 0 ∨ m < 0 ∨ p < 0 ∨
        (∃ c ∈ build, ¬ (c.isAlphanum = true ∨ c = '-' ∨ c = '.'))) := by
    rw [verify_eq_ok_iff_not_rejected]
    apply not_congr
    constructor
    · rintro (h | h | h | h | h | h)
      · exact .inl h
      · exact .inr (.inl h)
      · exact .inr (.inr (.inl h))
      · exact .inr (.inr (.inr (.inl h)))
      · exact absurd h hnil
      · exact .inr (.inr (.inr (.inr h)))
    · rintro (h | h | h | h | h)
      · exact .inl h
      · exact .inr (.inl h)
      · exact .inr (.inr (.inl h))
      · exact .inr (.inr (.inr (.inl h)))
      · exact .inr (.inr (.inr (.inr (.inr h))))
  have hPB := verify_eq_ok_iff_not_rejected M m p pre build
  have c1 := construct_outcome ⟨M, m, p, [], []⟩ _ h3
  have c2 := construct_outcome ⟨M, m, p, pre, []⟩ _ hP
  have c3 := construct_outcome ⟨M, m, p, [], build⟩ _ hB
  have c4 := construct_outcome ⟨M, m, p, pre, build⟩ _ hPB
  exact ⟨c1.1, c1.2, c2.1, c2.2, c3.1, c3.2, c4.1, c4.2, c4.1, c4.2⟩

/-- C7 (defect in the code): `operator<` is not asymmetric; for the valid versions 1.0.0-b and
2.0.0-a it answers true in both directions (once through major, once through the ungated
prerelease test). -/
theorem C7_operator_lt_is_not_asymmetric :
    version.verify ⟨1, 0, 0, ['b'], []⟩ = .ok () ∧
      version.verify ⟨2, 0, 0, ['a'], []⟩ = .ok () ∧
      operator_lt ⟨1, 0, 0, ['b'], []⟩ ⟨2, 0, 0, ['a'], []⟩ = true ∧
      operator_lt ⟨2, 0, 0, ['a'], []⟩ ⟨1, 0, 0, ['b'], []⟩ = true := by
  decide

/-- C8 (defect in the code): the text "1" is read as 1.1.0 and the text "10.7" as 10.10.0;
in both the minor number is the copy of the major digits that line 86 stores. -/
theorem C8_omitted_minor_is_copy_of_major :
    version.of_text ['1'] = .ok ⟨1, 1, 0, [], []⟩ ∧
      version.of_text ['1', '0', '.', '7'] = .ok ⟨10, 10, 0, [], []⟩ := by
  decide

/-- C9 (defect in the code): the text "12,3" is accepted and read as 12.12.0; with a major
number of two digits the look-ahead of line 89 sees the comma two positions ahead, so the
separator test is never reached. -/
theorem C9_comma_after_two_digit_major_is_accepted :
    version.of_text ['1', '2', ',', '3'] = .ok ⟨12, 12, 0, [], []⟩ := by
  decide

/-- The skipping loop leaves the character array on every text without a decimal digit. -/
theorem skip_non_digits_without_digit (s : List Char) (curr : Nat)
    (h : ∀ c ∈ s, c.isDigit = false) : skip_non_digits s curr = .error .read_outside_text := by
  induction s generalizing curr with
  | nil => rfl
  | cons c rest ih =>
    have hc : c.isDigit = false := h c (List.mem_cons_self c rest)
    simp only [skip_non_digits, hc, Bool.false_eq_true, if_false]
    exact ih (curr + 1) (fun d hd => h d (List.mem_cons_of_mem c hd))

/-- C10 (defect in the code): on every text without a decimal digit the constructor from text
does not throw `invalid_version`; the skipping loop of lines 79-80 runs past the terminating
NUL and reads outside the text. -/
theorem C10_no_digit_reads_outside_text (s : List Char) (h : ∀ c ∈ s, c.isDigit = false) :
    version.of_text s = .error .read_outside_text := by
  unfold version.of_text parse_numbers
  rw [skip_non_digits_without_digit s 0 h]

/-- C10 (defect in the code), at the empty text. -/
theorem C10_no_digit_reads_outside_text_witness :
    (∀ c ∈ ([] : List Char), c.isDigit = false) ∧
      version.of_text [] = .error .read_outside_text :=
  ⟨by simp, C10_no_digit_reads_outside_text [] (by simp)⟩

/-! ## Further lemmas on the comparator -/

theorem string_view_compare_self (a : List Char) : string_view_compare a a = .eq := by
  induction a with
  | nil => rfl
  | cons c cs ih => simp [string_view_compare, ih]

theorem string_view_compare_eq_iff (a b : List Char) :
    string_view_compare a b = .eq ↔ a = b := by
  induction a generalizing b with
  | nil =>
    cases b with
    | nil => simp [string_view_compare]
    | cons d ds => simp [string_view_compare]
  | cons c cs ih =>
    cases b with
    | nil => simp [string_view_compare]
    | cons d ds =>
      unfold string_view_compare
      by_cases h1 : c < d
      · have hne : c ≠ d := ne_of_lt h1
        simp [h1, hne]
      · by_cases h2 : d < c
        · have hne : c ≠ d := (ne_of_lt h2).symm
          simp [h1, h2, hne]
        · have hcd : c = d := le_antisymm (not_lt.1 h2) (not_lt.1 h1)
          simp [h1, h2, hcd, ih]

/-- What `compare_versions_with<std::greater_equal>` computes: once the major test fails the
gates of the minor and patch tests are closed, so only the prerelease test is left. -/
theorem operator_ge_eq_true_iff (a b : version) :
    operator_ge a b = true ↔
      (a.major ≥ b.major ∨ string_view_compare a.prerelease b.prerelease ≠ .lt) := by
  unfold operator_ge compare_versions_with greater_equal
  by_cases h1 : a.major ≥ b.major
  · simp [h1]
  · have hne : ¬ a.major = b.major := fun h => h1 (le_of_eq h.symm)
    simp [h1, hne, ordering_bne_iff]

/-- What `compare_versions_with<std::less_equal>` computes. -/
theorem operator_le_eq_true_iff (a b : version) :
    operator_le a b = true ↔
      (a.major ≤ b.major ∨ string_view_compare a.prerelease b.prerelease ≠ .gt) := by
  unfold operator_le compare_versions_with less_equal
  by_cases h1 : a.major ≤ b.major
  · simp [h1]
  · have hne : ¬ a.major = b.major := fun h => h1 (le_of_eq h)
    simp [h1, hne, ordering_bne_iff]

/-! ## Lemmas on the constructors -/

theorem to_string_natCast (n : Nat) : to_string (n : Int) = (Nat.repr n).toList := by
  unfold to_string
  have h : ¬ ((n : Int) < 0) := by omega
  simp only [h, if_false, Int.toNat_ofNat]
  rfl

/-- A successful construction from text has passed `verify`. -/
theorem of_text_ok_verify (s : List Char) (v : version) (h : version.of_text s = .ok v) :
    v.verify = .ok () := by
  unfold version.of_text at h
  cases hn : parse_numbers s with
  | error e => rw [hn] at h; cases h
  | ok n =>
    rw [hn] at h
    dsimp only at h
    cases ht : parse_tags s (n.curr + 1) with
    | error e => rw [ht] at h; cases h
    | ok t =>
      rw [ht] at h
      dsimp only at h
      cases hv : version.verify ⟨n.major, n.minor, n.patch, t.prerelease, t.build_metadata⟩ with
      | error e => rw [hv] at h; cases h
      | ok u =>
        rw [hv] at h
        cases u
        injection h with h
        rw [← h]
        exact hv

/-! ## The claims, continued -/

/-- C12: `string()` is defined on every version value, valid or not, and is the decimal
rendering of major, minor and patch separated by `.`, followed by `-` and the prerelease exactly
when the prerelease is non-empty, followed by `+` and the build metadata exactly when the build
metadata is non-empty; a non-negative number renders as its decimal digits; and
(1, 2, 3, "beta", "20230113000000") renders as "1.2.3-beta+20230113000000". -/
theorem C12_canonical_rendering (v : version) :
    v.string =
        to_string v.major ++ ['.'] ++ to_string v.minor ++ ['.'] ++ to_string v.patch ++
          (if v.prerelease = [] then [] else '-' :: v.prerelease) ++
          (if v.build_metadata = [] then [] else '+' :: v.build_metadata) ∧
      (∀ n : Nat, to_string (n : Int) = (Nat.repr n).toList) ∧
      version.string ⟨1, 2, 3, "beta".toList, "20230113000000".toList⟩ =
        "1.2.3-beta+20230113000000".toList := by
  refine ⟨?_, to_string_natCast, by decide⟩
  unfold version.string
  cases hp : v.prerelease <;> cases hb : v.build_metadata <;> simp

/-- C13: replacing the build metadata of both operands by arbitrary texts leaves the answer of
each of `operator<`, `operator<=`, `operator>` and `operator>=` unchanged. -/
theorem C13_build_metadata_never_affects_ordering (a b : version) (x y : List Char) :
    operator_lt ⟨a.major, a.minor, a.patch, a.prerelease, x⟩
        ⟨b.major, b.minor, b.patch, b.prerelease, y⟩ = operator_lt a b ∧
      operator_le ⟨a.major, a.minor, a.patch, a.prerelease, x⟩
        ⟨b.major, b.minor, b.patch, b.prerelease, y⟩ = operator_le a b ∧
      operator_gt ⟨a.major, a.minor, a.patch, a.prerelease, x⟩
        ⟨b.major, b.minor, b.patch, b.prerelease, y⟩ = operator_gt a b ∧
      operator_ge ⟨a.major, a.minor, a.patch, a.prerelease, x⟩
        ⟨b.major, b.minor, b.patch, b.prerelease, y⟩ = operator_ge a b :=
  ⟨rfl, rfl, rfl, rfl⟩

/-- C14: for non-negative numbers that are not all zero, and tag texts made of alphanumerics,
`-` and `.` only, each of the five constructors from raw values succeeds and the version holds
exactly the numbers passed, the text of every tag passed, and the empty text for a tag that
was not passed; the two orders of passing both tags give the same version. -/
theorem C14_raw_construction_preserves_arguments (M m p : Int) (pre build : List Char)
    (hM : 0 ≤ M) (hm : 0 ≤ m) (hp : 0 ≤ p) (hnz : ¬ (M = 0 ∧ m = 0 ∧ p = 0))
    (hpre : ∀ c ∈ pre, (c.isAlphanum = true ∨ c = '-' ∨ c = '.'))
    (hbuild : ∀ c ∈ build, (c.isAlphanum = true ∨ c = '-' ∨ c = '.')) :
    version.of_numbers M m p = .ok ⟨M, m, p, [], []⟩ ∧
      version.of_prerelease M m p ⟨pre⟩ = .ok ⟨M, m, p, pre, []⟩ ∧
      version.of_build_metadata M m p ⟨build⟩ = .ok ⟨M, m, p, [], build⟩ ∧
      version.of_prerelease_build_metadata M m p ⟨pre⟩ ⟨build⟩ = .ok ⟨M, m, p, pre, build⟩ ∧
      version.of_build_metadata_prerelease M m p ⟨build⟩ ⟨pre⟩ = .ok ⟨M, m, p, pre, build⟩ := by
  have hnil : ∀ c ∈ ([] : List Char), (c.isAlphanum = true ∨ c = '-' ∨ c = '.') := by
    intro c hc
    cases hc
  have v1 : version.verify ⟨M, m, p, [], []⟩ = .ok () :=
    (verify_eq_ok_iff _).2 ⟨hnz, hM, hm, hp, hnil, hnil⟩
  have v2 : version.verify ⟨M, m, p, pre, []⟩ = .ok () :=
    (verify_eq_ok_iff _).2 ⟨hnz, hM, hm, hp, hpre, hnil⟩
  have v3 : version.verify ⟨M, m, p, [], build⟩ = .ok () :=
    (verify_eq_ok_iff _).2 ⟨hnz, hM, hm, hp, hnil, hbuild⟩
  have v4 : version.verify ⟨M, m, p, pre, build⟩ = .ok () :=
    (verify_eq_ok_iff _).2 ⟨hnz, hM, hm, hp, hpre, hbuild⟩
  refine ⟨?_, ?_, ?_, ?_, ?_⟩
  · unfold version.of_numbers
    dsimp only
    rw [v1]
  · unfold version.of_prerelease
    dsimp only
    rw [v2]
  · unfold version.of_build_metadata
    dsimp only
    rw [v3]
  · unfold version.of_prerelease_build_metadata
    dsimp only
    rw [v4]
  · unfold version.of_build_metadata_prerelease
    dsimp only
    rw [v4]

/-- C14, at the numbers 1, 2, 3 with the tags "alpha.1" and "20230113000000" of the tests. -/
theorem C14_raw_construction_preserves_arguments_witness :
    version.of_numbers 1 2 3 = .ok ⟨1, 2, 3, [], []⟩ ∧
      version.of_prerelease 1 2 3 ⟨"alpha.1".toList⟩ = .ok ⟨1, 2, 3, "alpha.1".toList, []⟩ ∧
      version.of_build_metadata 1 2 3 ⟨"20230113000000".toList⟩ =
        .ok ⟨1, 2, 3, [], "20230113000000".toList⟩ ∧
      version.of_prerelease_build_metadata 1 2 3 ⟨"alpha.1".toList⟩ ⟨"20230113000000".toList⟩ =
        .ok ⟨1, 2, 3, "alpha.1".toList, "20230113000000".toList⟩ ∧
      version.of_build_metadata_prerelease 1 2 3 ⟨"20230113000000".toList⟩ ⟨"alpha.1".toList⟩ =
        .ok ⟨1, 2, 3, "alpha.1".toList, "20230113000000".toList⟩ :=
  C14_raw_construction_preserves_arguments 1 2 3 "alpha.1".toList "20230113000000".toList
    (by decide) (by decide) (by decide) (by decide) (by decide) (by decide)

/-- C15: whenever the constructor from text returns a version, its major, minor and patch are
non-negative and not all zero, and every character of its prerelease and of its build metadata
is alphanumeric, `-` or `.`. -/
theorem C15_parsed_versions_satisfy_invariants (s : List Char) (v : version)
    (h : version.of_text s = .ok v) :
    0 ≤ v.major ∧ 0 ≤ v.minor ∧ 0 ≤ v.patch ∧ ¬ (v.major = 0 ∧ v.minor = 0 ∧ v.patch = 0) ∧
      (∀ c ∈ v.prerelease, (c.isAlphanum = true ∨ c = '-' ∨ c = '.')) ∧
      (∀ c ∈ v.build_metadata, (c.isAlphanum = true ∨ c = '-' ∨ c = '.')) := by
  obtain ⟨h0, h1, h2, h3, h4, h5⟩ := (verify_eq_ok_iff v).1 (of_text_ok_verify s v h)
  exact ⟨h1, h2, h3, h0, h4, h5⟩

/-- C15, at the text "v1.2.3-alpha.1+20230113000000". -/
theorem C15_parsed_versions_satisfy_invariants_witness :
    version.of_text "v1.2.3-alpha.1+20230113000000".toList =
        .ok ⟨1, 2, 3, "alpha.1".toList, "20230113000000".toList⟩ ∧
      ((0 : Int) ≤ 1 ∧ (0 : Int) ≤ 2 ∧ (0 : Int) ≤ 3 ∧
        ¬ ((1 : Int) = 0 ∧ (2 : Int) = 0 ∧ (3 : Int) = 0) ∧
        (∀ c ∈ "alpha.1".toList, (c.isAlphanum = true ∨ c = '-' ∨ c = '.')) ∧
        (∀ c ∈ "20230113000000".toList, (c.isAlphanum = true ∨ c = '-' ∨ c = '.'))) :=
  ⟨by decide,
    C15_parsed_versions_satisfy_invariants "v1.2.3-alpha.1+20230113000000".toList
      ⟨1, 2, 3, "alpha.1".toList, "20230113000000".toList⟩ (by decide)⟩

/-- C16: `operator==` is true exactly when neither `operator<` nor `operator>` is, and two
versions that are `operator==` are both `operator<=` and `operator>=` each other. -/
theorem C16_ordering_consistent_with_equality (a b : version) :
    (operator_eq a b = true ↔ (operator_lt a b = false ∧ operator_gt a b = false)) ∧
      (operator_eq a b = true → (operator_le a b = true ∧ operator_ge a b = true)) := by
  have heq : operator_eq a b = true ↔
      (a.major = b.major ∧ a.minor = b.minor ∧ a.patch = b.patch ∧
        a.prerelease = b.prerelease) := by
    unfold operator_eq
    simp [and_assoc]
  constructor
  · rw [heq, Bool.eq_false_iff, Bool.eq_false_iff, Ne, Ne, operator_lt_eq_true_iff,
      operator_gt_eq_true_iff]
    constructor
    · rintro ⟨h1, h2, h3, h4⟩
      have hs : string_view_compare a.prerelease b.prerelease = .eq :=
        (string_view_compare_eq_iff _ _).2 h4
      constructor
      · rintro (h | h | h | h)
        · omega
        · omega
        · omega
        · rw [hs] at h; cases h
      · rintro (h | h | h | h)
        · omega
        · omega
        · omega
        · rw [hs] at h; cases h
    · rintro ⟨hl, hg⟩
      have e1 : a.major = b.major := by
        by_contra hne
        rcases lt_or_gt_of_ne hne with h | h
        · exact hl (.inl h)
        · exact hg (.inl h)
      have e2 : a.minor = b.minor := by
        by_contra hne
        rcases lt_or_gt_of_ne hne with h | h
        · exact hl (.inr (.inl ⟨e1, h⟩))
        · exact hg (.inr (.inl ⟨e1, h⟩))
      have e3 : a.patch = b.patch := by
        by_contra hne
        rcases lt_or_gt_of_ne hne with h | h
        · exact hl (.inr (.inr (.inl ⟨e1, e2, h⟩)))
        · exact hg (.inr (.inr (.inl ⟨e1, e2, h⟩)))
      refine ⟨e1, e2, e3, (string_view_compare_eq_iff _ _).1 ?_⟩
      cases hs : string_view_compare a.prerelease b.prerelease with
      | lt => exact absurd (.inr (.inr (.inr hs))) hl
      | eq => rfl
      | gt => exact absurd (.inr (.inr (.inr hs))) hg
  · intro h
    obtain ⟨h1, _, _, _⟩ := heq.1 h
    exact ⟨(operator_le_eq_true_iff a b).2 (.inl (le_of_eq h1)),
      (operator_ge_eq_true_iff a b).2 (.inl (le_of_eq h1.symm))⟩

/-- C17: `operator>=` is true exactly when the left major is at least the right major or the
left prerelease is not smaller than the right one in string order, and `operator<=` exactly
when the left major is at most the right major or the left prerelease is not greater; minor
and patch play no part.  Hence both are true for every pair of versions with the same
prerelease text, as in (1, 0, 0) >= (2, 0, 0). -/
theorem C17_ge_and_le_ignore_minor_and_patch (a b : version) :
    (operator_ge a b = true ↔
        (a.major ≥ b.major ∨ string_view_compare a.prerelease b.prerelease ≠ .lt)) ∧
      (operator_le a b = true ↔
        (a.major ≤ b.major ∨ string_view_compare a.prerelease b.prerelease ≠ .gt)) ∧
      operator_ge a ⟨b.major, b.minor, b.patch, a.prerelease, b.build_metadata⟩ = true ∧
      operator_le a ⟨b.major, b.minor, b.patch, a.prerelease, b.build_metadata⟩ = true ∧
      operator_ge ⟨1, 0, 0, [], []⟩ ⟨2, 0, 0, [], []⟩ = true := by
  refine ⟨operator_ge_eq_true_iff a b, operator_le_eq_true_iff a b, ?_, ?_, by decide⟩
  · rw [operator_ge_eq_true_iff]
    right
    show string_view_compare a.prerelease a.prerelease ≠ .lt
    rw [string_view_compare_self]
    decide
  · rw [operator_le_eq_true_iff]
    right
    show string_view_compare a.prerelease a.prerelease ≠ .gt
    rw [string_view_compare_self]
    decide

/-! ## Lemmas on the parser: where the cursor can be -/

theorem get?_lt_length (s : List Char) (i : Nat) (c : Char) (h : s.get? i = some c) :
    i < s.length := by
  by_contra hn
  rw [List.get?_eq_none.2 (not_lt.1 hn)] at h
  cases h

theorem drop_of_get? (s : List Char) (i : Nat) (c : Char) (h : s.get? i = some c) :
    s.drop i = c :: s.drop (i + 1) := by
  induction s generalizing i with
  | nil => cases h
  | cons a rest ih =>
    cases i with
    | zero =>
      simp only [List.get?_cons_zero, Option.some.injEq] at h
      simp [h]
    | succ j =>
      simp only [List.get?_cons_succ] at h
      simpa using ih j h

theorem peek_of_get? (s : List Char) (i : Nat) (c : Char) (h : s.get? i = some c) :
    peek s i = .ok c := by
  unfold peek
  rw [h]

theorem peek_length (s : List Char) : peek s s.length = .ok NUL := by
  unfold peek
  rw [List.get?_eq_none.2 (le_refl _)]
  simp

theorem peek_of_le (s : List Char) (i : Nat) (h : i ≤ s.length) : ∃ c, peek s i = .ok c := by
  rcases Nat.lt_or_ge i s.length with hlt | hge
  · cases hg : s.get? i with
    | none => exact absurd (List.get?_eq_none.1 hg) (not_le.2 hlt)
    | some c => exact ⟨c, peek_of_get? s i c hg⟩
  · have : i = s.length := le_antisymm h hge
    subst this
    exact ⟨NUL, peek_length s⟩

/-- A successful read of a character other than NUL is a read of a character of the text. -/
theorem get?_of_peek (s : List Char) (i : Nat) (c : Char) (h : peek s i = .ok c)
    (hc : c ≠ NUL) : s.get? i = some c := by
  unfold peek at h
  cases hg : s.get? i with
  | some d =>
    rw [hg] at h
    injection h with h
    rw [h]
  | none =>
    rw [hg] at h
    dsimp only at h
    split at h
    · injection h with h
      exact absurd h.symm hc
    · cases h

theorem NUL_not_digit : NUL.isDigit = false := by decide

theorem digit_ne_NUL (c : Char) (h : c.isDigit = true) : c ≠ NUL := by
  intro hc
  rw [hc, NUL_not_digit] at h
  cases h

theorem digit_ne_minus (c : Char) (h : c.isDigit = true) : c ≠ '-' := by
  intro hc
  rw [hc] at h
  revert h
  decide

/-- The skipping loop stops on a digit of the text, when it stops. -/
theorem skip_non_digits_ok (r : List Char) (k j : Nat) (h : skip_non_digits r k = .ok j) :
    ∃ i, j = k + i ∧ ∃ d, r.get? i = some d ∧ d.isDigit = true := by
  induction r generalizing k with
  | nil => cases h
  | cons c rest ih =>
    unfold skip_non_digits at h
    by_cases hc : c.isDigit = true
    · rw [if_pos hc] at h
      injection h with h
      exact ⟨0, by omega, c, rfl, hc⟩
    · rw [if_neg hc] at h
      obtain ⟨i, hi, d, hd, hdd⟩ := ih (k + 1) h
      exact ⟨i + 1, by omega, d, by simpa using hd, hdd⟩

/-- The skipping loop stops on every text that holds a digit. -/
theorem skip_non_digits_of_digit (r : List Char) (k : Nat) (h : ∃ c ∈ r, c.isDigit = true) :
    ∃ j, skip_non_digits r k = .ok j := by
  induction r generalizing k with
  | nil =>
    obtain ⟨c, hc, _⟩ := h
    cases hc
  | cons c rest ih =>
    unfold skip_non_digits
    by_cases hc : c.isDigit = true
    · rw [if_pos hc]
      exact ⟨k, rfl⟩
    · rw [if_neg hc]
      apply ih
      obtain ⟨d, hd, hdd⟩ := h
      rcases List.mem_cons.1 hd with rfl | hmem
      · exact absurd hdd hc
      · exact ⟨d, hmem, hdd⟩

/-- A conversion that starts on a digit of the text consumes at least that digit. -/
theorem from_chars_at_digit (s : List Char) (first : Nat) (value : Int)
    (h : at_digit s first) : (from_chars s first s.length value).1 ≠ first := by
  obtain ⟨d, hd, hdd⟩ := h
  have hrange : (s.take s.length).drop first = d :: s.drop (first + 1) := by
    rw [List.take_length]
    exact drop_of_get? s first d hd
  have hneg : ((d :: s.drop (first + 1)).head? == some '-') = false := by
    have := digit_ne_minus d hdd
    simp [this]
  unfold from_chars
  simp only [hrange, hneg, Bool.false_eq_true, if_false, List.takeWhile_cons, hdd, if_true,
    List.isEmpty_cons, List.length_cons]
  split <;> simp

/-- The look-ahead on a digit of the text never leaves the array; when it holds, the position
two ahead is again a digit of the text. -/
theorem continuation_at_digit (s : List Char) (curr : Nat) (h : at_digit s curr) :
    continuation s curr = .ok false ∨
      (continuation s curr = .ok true ∧ at_digit s (curr + 2)) := by
  obtain ⟨d, hd, _⟩ := h
  have hlt := get?_lt_length s curr d hd
  obtain ⟨c1, hc1⟩ := peek_of_le s (curr + 1) hlt
  unfold continuation
  rw [hc1]
  dsimp only
  by_cases hn : c1 = NUL
  · left
    rw [if_pos hn]
  · rw [if_neg hn]
    have hlt1 := get?_lt_length s (curr + 1) c1 (get?_of_peek s (curr + 1) c1 hc1 hn)
    obtain ⟨c2, hc2⟩ := peek_of_le s (curr + 2) hlt1
    rw [hc2]
    dsimp only
    cases hdig : c2.isDigit with
    | false => left; rfl
    | true =>
      right
      exact ⟨rfl, c2, get?_of_peek s (curr + 2) c2 hc2 (digit_ne_NUL c2 hdig), hdig⟩

/-- Lines 97-104 entered on a digit of the text: the patch block either throws "invalid
separator" or ends with the cursor on a digit of the text. -/
theorem parse_patch_at_digit (s : List Char) (major minor : Int) (curr : Nat)
    (h : at_digit s curr) :
    (∃ n, parse_patch s s.length major minor curr = .ok n ∧ at_digit s n.curr) ∨
      parse_patch s s.length major minor curr = .error (.thrown .invalid_separator) := by
  unfold parse_patch
  rcases continuation_at_digit s curr h with hc | ⟨hc, hnext⟩
  · rw [hc]
    exact .inl ⟨_, rfl, h⟩
  · rw [hc]
    dsimp only
    obtain ⟨d, hd, _⟩ := hnext
    have hlt := get?_lt_length s (curr + 2) d hd
    obtain ⟨c, hpk⟩ := peek_of_le s (curr + 1) (by omega)
    rw [hpk]
    dsimp only
    by_cases hsep : (c != '.') = true
    · rw [if_pos hsep]
      exact .inr rfl
    · rw [if_neg hsep]
      have hne := from_chars_at_digit s (curr + 1 + 1) 0 ⟨d, hd, by assumption⟩
      rw [if_neg hne]
      exact .inl ⟨_, rfl, d, hd, by assumption⟩

/-- Lines 89-105 entered on a digit of the text: the minor and patch blocks either throw
"invalid separator" or end with the cursor on a digit of the text. -/
theorem parse_minor_at_digit (s : List Char) (major minor : Int) (curr : Nat)
    (h : at_digit s curr) :
    (∃ n, parse_minor s s.length major minor curr = .ok n ∧ at_digit s n.curr) ∨
      parse_minor s s.length major minor curr = .error (.thrown .invalid_separator) := by
  unfold parse_minor
  rcases continuation_at_digit s curr h with hc | ⟨hc, hnext⟩
  · rw [hc]
    exact .inl ⟨_, rfl, h⟩
  · rw [hc]
    dsimp only
    have hnext2 := hnext
    obtain ⟨d, hd, _⟩ := hnext
    have hlt := get?_lt_length s (curr + 2) d hd
    obtain ⟨c, hpk⟩ := peek_of_le s (curr + 1) (by omega)
    rw [hpk]
    dsimp only
    by_cases hsep : (c != '.') = true
    · rw [if_pos hsep]
      exact .inr rfl
    · rw [if_neg hsep]
      have hne := from_chars_at_digit s (curr + 1 + 1) minor hnext2
      rw [if_neg hne]
      exact parse_patch_at_digit s major _ (curr + 1 + 1) hnext2

/-- Lines 76-105 on a text that holds a digit: the numeric section either throws "invalid
separator" or ends with the cursor on a digit of the text. -/
theorem parse_numbers_of_digit (s : List Char) (h : ∃ c ∈ s, c.isDigit = true) :
    (∃ n, parse_numbers s = .ok n ∧ at_digit s n.curr) ∨
      parse_numbers s = .error (.thrown .invalid_separator) := by
  obtain ⟨curr, hskip⟩ := skip_non_digits_of_digit s 0 h
  obtain ⟨i, hi, d, hd, hdd⟩ := skip_non_digits_ok s 0 curr hskip
  have hcurr : at_digit s curr := by
    have : curr = i := by omega
    subst this
    exact ⟨d, hd, hdd⟩
  unfold parse_numbers
  rw [hskip]
  dsimp only
  rw [if_neg (from_chars_at_digit s curr 0 hcurr)]
  exact parse_minor_at_digit s _ _ curr hcurr

/-- Lines 121-131 never leave the array when entered inside it. -/
theorem parse_build_metadata_ok (s pre : List Char) (curr : Nat) (h : curr ≤ s.length) :
    ∃ t, parse_build_metadata s pre curr = .ok t := by
  obtain ⟨c, hc⟩ := peek_of_le s curr h
  unfold parse_build_metadata
  rw [hc]
  dsimp only
  split
  · exact ⟨_, rfl⟩
  · exact ⟨_, rfl⟩

/-- Lines 109-131 never leave the array when entered inside it. -/
theorem parse_tags_ok (s : List Char) (curr : Nat) (h : curr ≤ s.length) :
    ∃ t, parse_tags s curr = .ok t := by
  obtain ⟨c, hc⟩ := peek_of_le s curr h
  unfold parse_tags
  rw [hc]
  dsimp only
  split
  · apply parse_build_metadata_ok
    have h1 : ((s.drop (curr + 1)).takeWhile (fun c => c != NUL && c != '+')).length ≤
        (s.drop (curr + 1)).length := (List.takeWhile_sublist _).length_le
    rename_i hminus
    have hcm : c = '-' := by simpa using hminus
    have hcn : c ≠ NUL := by rw [hcm]; decide
    have hlt := get?_lt_length s curr c (get?_of_peek s curr c hc hcn)
    rw [List.length_drop] at h1
    omega
  · exact parse_build_metadata_ok s [] curr h

/-- The constructor from text, on a text that holds a digit, returns a version, or throws
"invalid separator", or throws what `verify` throws on the version it has assembled. -/
theorem of_text_of_digit (s : List Char) (h : ∃ c ∈ s, c.isDigit = true) :
    (∃ v, version.of_text s = .ok v) ∨
      version.of_text s = .error (.thrown .invalid_separator) ∨
      (∃ v e, version.verify v = .error e ∧ version.of_text s = .error (.thrown e)) := by
  unfold version.of_text
  rcases parse_numbers_of_digit s h with ⟨n, hn, d, hd, _⟩ | hn
  · rw [hn]
    dsimp only
    have hlt := get?_lt_length s n.curr d hd
    obtain ⟨t, ht⟩ := parse_tags_ok s (n.curr + 1) hlt
    rw [ht]
    dsimp only
    cases hv : version.verify ⟨n.major, n.minor, n.patch, t.prerelease, t.build_metadata⟩ with
    | error e => exact .inr (.inr ⟨_, e, hv, rfl⟩)
    | ok u =>
      cases u
      exact .inl ⟨_, rfl⟩
  · rw [hn]
    exact .inr (.inl rfl)

/-- No message of `verify` is one of the three "failed to parse" messages or "invalid
separator". -/
theorem verify_error_kind (v : version) (e : invalid_version) (h : v.verify = .error e) :
    e ≠ .failed_major ∧ e ≠ .failed_minor ∧ e ≠ .failed_patch ∧ e ≠ .invalid_separator := by
  unfold version.verify at h
  split at h
  · injection h with h; subst h; simp
  · split at h
    · injection h with h; subst h; simp
    · split at h
      · injection h with h; subst h; simp
      · split at h
        · injection h with h; subst h; simp
        · split at h
          · injection h with h; subst h; simp
          · split at h
            · injection h with h; subst h; simp
            · cases h

/-- C19: on every text that holds a decimal digit the constructor from text returns a version,
or throws "invalid separator", or throws from inside `verify`; it never throws one of the
three "failed to parse major/minor/patch version number" messages, and it never reads outside
the text. -/
theorem C19_failed_to_parse_branches_unreachable (s : List Char)
    (h : ∃ c ∈ s, c.isDigit = true) :
    ((∃ v, version.of_text s = .ok v) ∨
        version.of_text s = .error (.thrown .invalid_separator) ∨
        (∃ v e, version.verify v = .error e ∧ version.of_text s = .error (.thrown e))) ∧
      version.of_text s ≠ .error (.thrown .failed_major) ∧
      version.of_text s ≠ .error (.thrown .failed_minor) ∧
      version.of_text s ≠ .error (.thrown .failed_patch) ∧
      version.of_text s ≠ .error .read_outside_text := by
  have key := of_text_of_digit s h
  refine ⟨key, ?_, ?_, ?_, ?_⟩
  all_goals
    intro hbad
    rcases key with ⟨v, hv⟩ | hv | ⟨v, e, hve, hv⟩
    · rw [hv] at hbad; cases hbad
    · rw [hv] at hbad; cases hbad
    · rw [hv] at hbad
      have hk := verify_error_kind v e hve
      first
        | (injection hbad with hbad; injection hbad with hbad; subst hbad; simp at hk)
        | (injection hbad with hbad; cases hbad)

/-- C19, at the text "1,2,3" of the test `ThrowsOnInvalidVersionSeparators`. -/
theorem C19_failed_to_parse_branches_unreachable_witness :
    (∃ c ∈ "1,2,3".toList, c.isDigit = true) ∧
      version.of_text "1,2,3".toList = .error (.thrown .invalid_separator) ∧
      version.of_text "1,2,3".toList ≠ .error (.thrown .failed_major) :=
  ⟨by decide, by decide,
    (C19_failed_to_parse_branches_unreachable "1,2,3".toList (by decide)).2.1⟩

/-! ## Lemmas on the parser: one more character in front of the text -/

theorem peek_cons (c : Char) (s : List Char) (i : Nat) : peek (c :: s) (i + 1) = peek s i := by
  unfold peek
  simp only [List.get?_cons_succ, List.length_cons]
  cases s.get? i with
  | some d => rfl
  | none =>
    dsimp only
    by_cases h : i = s.length
    · rw [if_pos h, if_pos (by omega)]
    · rw [if_neg h, if_neg (by omega)]

theorem from_chars_cons (c : Char) (s : List Char) (first last : Nat) (value : Int) :
    from_chars (c :: s) (first + 1) (last + 1) value =
      ((from_chars s first last value).1 + 1, (from_chars s first last value).2) := by
  unfold from_chars
  simp only [List.take_succ_cons, List.drop_succ_cons]
  split_ifs <;> simp only [Prod.mk.injEq, and_true] <;> omega

theorem continuation_cons (c : Char) (s : List Char) (curr : Nat) :
    continuation (c :: s) (curr + 1) = continuation s curr := by
  unfold continuation
  have h1 : peek (c :: s) (curr + 1 + 1) = peek s (curr + 1) := peek_cons c s (curr + 1)
  have h2 : peek (c :: s) (curr + 1 + 2) = peek s (curr + 2) := peek_cons c s (curr + 2)
  rw [h1, h2]

theorem parse_patch_cons (c : Char) (s : List Char) (last : Nat) (major minor : Int)
    (curr : Nat) :
    parse_patch (c :: s) (last + 1) major minor (curr + 1) =
      (parse_patch s last major minor curr).map numbers.advance := by
  unfold parse_patch
  rw [continuation_cons]
  cases continuation s curr with
  | error e => rfl
  | ok b =>
    cases b with
    | false => rfl
    | true =>
      dsimp only
      rw [peek_cons]
      cases peek s (curr + 1) with
      | error e => rfl
      | ok d =>
        dsimp only
        by_cases hsep : (d != '.') = true
        · rw [if_pos hsep, if_pos hsep]
          rfl
        · rw [if_neg hsep, if_neg hsep, from_chars_cons]
          dsimp only
          by_cases hp : (from_chars s (curr + 1 + 1) last 0).1 = curr + 1 + 1
          · rw [if_pos hp, if_pos (congrArg (fun x => x + 1) hp)]
            rfl
          · rw [if_neg hp, if_neg (fun h => hp (Nat.add_right_cancel h))]
            rfl

theorem parse_minor_cons (c : Char) (s : List Char) (last : Nat) (major minor : Int)
    (curr : Nat) :
    parse_minor (c :: s) (last + 1) major minor (curr + 1) =
      (parse_minor s last major minor curr).map numbers.advance := by
  unfold parse_minor
  rw [continuation_cons]
  cases continuation s curr with
  | error e => rfl
  | ok b =>
    cases b with
    | false => rfl
    | true =>
      dsimp only
      rw [peek_cons]
      cases peek s (curr + 1) with
      | error e => rfl
      | ok d =>
        dsimp only
        by_cases hsep : (d != '.') = true
        · rw [if_pos hsep, if_pos hsep]
          rfl
        · rw [if_neg hsep, if_neg hsep, from_chars_cons]
          dsimp only
          by_cases hp : (from_chars s (curr + 1 + 1) last minor).1 = curr + 1 + 1
          · rw [if_pos hp, if_pos (congrArg (fun x => x + 1) hp)]
            rfl
          · rw [if_neg hp, if_neg (fun h => hp (Nat.add_right_cancel h))]
            exact parse_patch_cons c s last major _ (curr + 1 + 1)

theorem skip_non_digits_succ (r : List Char) (k : Nat) :
    skip_non_digits r (k + 1) = (skip_non_digits r k).map (fun j => j + 1) := by
  induction r generalizing k with
  | nil => rfl
  | cons c rest ih =>
    unfold skip_non_digits
    by_cases hc : c.isDigit = true
    · rw [if_pos hc, if_pos hc]
      rfl
    · rw [if_neg hc, if_neg hc]
      exact ih (k + 1)

theorem parse_numbers_cons (c : Char) (s : List Char) (hc : c.isDigit = false) :
    parse_numbers (c :: s) = (parse_numbers s).map numbers.advance := by
  unfold parse_numbers
  have hskip : skip_non_digits (c :: s) 0 = (skip_non_digits s 0).map (fun j => j + 1) := by
    rw [← skip_non_digits_succ]
    simp [skip_non_digits, hc]
  rw [hskip]
  cases skip_non_digits s 0 with
  | error e => rfl
  | ok curr =>
    simp only [Except.map, List.length_cons]
    rw [from_chars_cons]
    dsimp only
    by_cases hp : (from_chars s curr s.length 0).1 = curr
    · rw [if_pos hp, if_pos (by omega)]
    · rw [if_neg hp, if_neg (by omega)]
      exact parse_minor_cons c s s.length _ _ curr

theorem parse_build_metadata_cons (c : Char) (s pre : List Char) (curr : Nat) :
    parse_build_metadata (c :: s) pre (curr + 1) = parse_build_metadata s pre curr := by
  unfold parse_build_metadata
  rw [peek_cons]
  simp only [List.drop_succ_cons]

theorem parse_tags_cons (c : Char) (s : List Char) (curr : Nat) :
    parse_tags (c :: s) (curr + 1) = parse_tags s curr := by
  unfold parse_tags
  rw [peek_cons]
  simp only [List.drop_succ_cons]
  cases peek s curr with
  | error e => rfl
  | ok d =>
    dsimp only
    split
    · have harith : ∀ L : Nat, curr + 1 + 1 + L = (curr + 1 + L) + 1 := by
        intro L
        omega
      rw [harith, parse_build_metadata_cons]
    · rw [parse_build_metadata_cons]

/-- One character that is not a digit, put in front of a text, does not change what the
constructor from text returns or throws. -/
theorem of_text_cons (c : Char) (s : List Char) (hc : c.isDigit = false) :
    version.of_text (c :: s) = version.of_text s := by
  unfold version.of_text
  rw [parse_numbers_cons c s hc]
  cases parse_numbers s with
  | error e => rfl
  | ok n =>
    simp only [Except.map, numbers.advance]
    rw [parse_tags_cons]

theorem of_text_append (P s : List Char) (hP : ∀ c ∈ P, c.isDigit = false) :
    version.of_text (P ++ s) = version.of_text s := by
  induction P with
  | nil => rfl
  | cons c rest ih =>
    rw [List.cons_append, of_text_cons c (rest ++ s) (hP c (List.mem_cons_self c rest))]
    exact ih (fun d hd => hP d (List.mem_cons_of_mem c hd))

/-- C11: for a text `s` that holds a decimal digit and a prefix `P` without one, constructing
from `P ++ s` and from `s` either both throw `invalid_version` or both return a version, with
identical major, minor, patch, prerelease and build metadata; the two outcomes are the same
down to the reason thrown. -/
theorem C11_prefix_tolerance (P s : List Char) (hP : ∀ c ∈ P, c.isDigit = false)
    (hs : ∃ c ∈ s, c.isDigit = true) :
    ((∃ e1 e2, version.of_text (P ++ s) = .error (.thrown e1) ∧
          version.of_text s = .error (.thrown e2)) ∨
        (∃ v, version.of_text (P ++ s) = .ok v ∧ version.of_text s = .ok v)) ∧
      version.of_text (P ++ s) = version.of_text s := by
  have heq := of_text_append P s hP
  refine ⟨?_, heq⟩
  rw [heq]
  rcases of_text_of_digit s hs with ⟨v, hv⟩ | hv | ⟨v, e, _, hv⟩
  · exact .inr ⟨v, hv, hv⟩
  · exact .inl ⟨_, _, hv, hv⟩
  · exact .inl ⟨_, _, hv, hv⟩

/-- C11, at the prefix "v" and the text "1.2.3" of the test `ConstructFromStringWithPrefix`. -/
theorem C11_prefix_tolerance_witness :
    (∀ c ∈ "v".toList, c.isDigit = false) ∧ (∃ c ∈ "1.2.3".toList, c.isDigit = true) ∧
      version.of_text ("v".toList ++ "1.2.3".toList) = version.of_text "1.2.3".toList :=
  ⟨by decide, by decide,
    (C11_prefix_tolerance "v".toList "1.2.3".toList (by decide) (by decide)).2⟩

/-! ## Lemmas on the parser: the rendering of a single-digit triplet -/

theorem digits_value_singleton (d : Char) : digits_value [d] = digit_value d := by
  simp [digits_value, digit_value]

/-- A number from 0 to 9 renders as one digit character of that value. -/
theorem to_string_single_digit (n : Int) (h0 : 0 ≤ n) (h9 : n ≤ 9) :
    ∃ d : Char, to_string n = [d] ∧ d.isDigit = true ∧ digit_value d = n := by
  lift n to ℕ using h0
  have hk : n ≤ 9 := by omega
  interval_cases n
  · exact ⟨'0', by decide, by decide, by decide⟩
  · exact ⟨'1', by decide, by decide, by decide⟩
  · exact ⟨'2', by decide, by decide, by decide⟩
  · exact ⟨'3', by decide, by decide, by decide⟩
  · exact ⟨'4', by decide, by decide, by decide⟩
  · exact ⟨'5', by decide, by decide, by decide⟩
  · exact ⟨'6', by decide, by decide, by decide⟩
  · exact ⟨'7', by decide, by decide, by decide⟩
  · exact ⟨'8', by decide, by decide, by decide⟩
  · exact ⟨'9', by decide, by decide, by decide⟩

/-- A conversion that starts on a digit followed by something that is not a digit consumes
that one digit and stores its value. -/
theorem from_chars_single_digit (s : List Char) (first : Nat) (value : Int) (d : Char)
    (rest : List Char) (hdrop : s.drop first = d :: rest) (hd : d.isDigit = true)
    (hrest : ∀ c, rest.head? = some c → c.isDigit = false)
    (hlo : 0 ≤ digit_value d) (hhi : digit_value d ≤ 9) :
    from_chars s first s.length value = (first + 1, digit_value d) := by
  have hrange : (s.take s.length).drop first = d :: rest := by
    rw [List.take_length]
    exact hdrop
  have hneg : ((d :: rest).head? == some '-') = false := by
    have := digit_ne_minus d hd
    simp [this]
  have hdigits : (d :: rest).takeWhile Char.isDigit = [d] := by
    cases rest with
    | nil => simp [hd]
    | cons c cs =>
      have hc : c.isDigit = false := hrest c rfl
      simp [hd, hc]
  have hin : INT_MIN ≤ digit_value d ∧ digit_value d ≤ INT_MAX := by
    unfold INT_MIN INT_MAX
    omega
  unfold from_chars
  simp only [hrange, hneg, Bool.false_eq_true, if_false, hdigits, List.isEmpty_cons,
    digits_value_singleton, hin, and_self, if_true, List.length_singleton, Nat.add_zero]

/-- Lines 76-105 on a text that starts with digit, `.`, digit, `.`, digit and goes on with
something that is not a digit: the three digits are the three numbers and the cursor ends on
the third digit. -/
theorem parse_numbers_single_digits (dM dm dp : Char) (T : List Char)
    (hM : dM.isDigit = true) (hm : dm.isDigit = true) (hp : dp.isDigit = true)
    (hMv : 0 ≤ digit_value dM ∧ digit_value dM ≤ 9)
    (hmv : 0 ≤ digit_value dm ∧ digit_value dm ≤ 9)
    (hpv : 0 ≤ digit_value dp ∧ digit_value dp ≤ 9)
    (hT : ∀ c, T.head? = some c → c.isDigit = false) :
    parse_numbers (dM :: '.' :: dm :: '.' :: dp :: T) =
      .ok ⟨digit_value dM, digit_value dm, digit_value dp, 4⟩ := by
  have hdot : ∀ (l : List Char) (c : Char), ('.' :: l).head? = some c → c.isDigit = false := by
    intro l c hc
    simp only [List.head?_cons, Option.some.injEq] at hc
    rw [← hc]
    decide
  have hf0 : ∀ value, from_chars (dM :: '.' :: dm :: '.' :: dp :: T) 0
      (dM :: '.' :: dm :: '.' :: dp :: T).length value = (0 + 1, digit_value dM) :=
    fun value => from_chars_single_digit _ 0 value dM _ rfl hM (hdot _) hMv.1 hMv.2
  have hf2 : ∀ value, from_chars (dM :: '.' :: dm :: '.' :: dp :: T) (0 + 1 + 1)
      (dM :: '.' :: dm :: '.' :: dp :: T).length value = (0 + 1 + 1 + 1, digit_value dm) :=
    fun value => from_chars_single_digit _ 2 value dm _ rfl hm (hdot _) hmv.1 hmv.2
  have hf4 : ∀ value, from_chars (dM :: '.' :: dm :: '.' :: dp :: T) (0 + 1 + 1 + 1 + 1)
      (dM :: '.' :: dm :: '.' :: dp :: T).length value =
        (0 + 1 + 1 + 1 + 1 + 1, digit_value dp) :=
    fun value => from_chars_single_digit _ 4 value dp _ rfl hp hT hpv.1 hpv.2
  have hdotN : ('.' = NUL) = False := by
    apply eq_false
    decide
  have hc0 : continuation (dM :: '.' :: dm :: '.' :: dp :: T) 0 = .ok true := by
    simp [continuation, peek, hm, hdotN]
  have hc2 : continuation (dM :: '.' :: dm :: '.' :: dp :: T) (0 + 1 + 1) = .ok true := by
    simp [continuation, peek, hp, hdotN]
  have hp1 : peek (dM :: '.' :: dm :: '.' :: dp :: T) (0 + 1) = .ok '.' := rfl
  have hp3 : peek (dM :: '.' :: dm :: '.' :: dp :: T) (0 + 1 + 1 + 1) = .ok '.' := rfl
  have hskip : skip_non_digits (dM :: '.' :: dm :: '.' :: dp :: T) 0 = .ok 0 := by
    simp [skip_non_digits, hM]
  unfold parse_numbers
  rw [hskip]
  dsimp only
  rw [hf0]
  dsimp only
  rw [if_neg (by omega)]
  unfold parse_minor
  rw [hc0]
  dsimp only
  rw [hp1]
  dsimp only
  rw [if_neg (by decide), hf2]
  dsimp only
  rw [if_neg (by omega)]
  unfold parse_patch
  rw [hc2]
  dsimp only
  rw [hp3]
  dsimp only
  rw [if_neg (by decide), hf4]
  dsimp only
  rw [if_neg (by omega)]

theorem legal_ne_NUL (c : Char) (h : c.isAlphanum = true ∨ c = '-' ∨ c = '.') : c ≠ NUL := by
  intro hc
  rw [hc] at h
  revert h
  decide

theorem legal_ne_plus (c : Char) (h : c.isAlphanum = true ∨ c = '-' ∨ c = '.') : c ≠ '+' := by
  intro hc
  rw [hc] at h
  revert h
  decide

theorem parse_build_metadata_append (A R pre : List Char) (k : Nat) :
    parse_build_metadata (A ++ R) pre (A.length + k) = parse_build_metadata R pre k := by
  induction A with
  | nil => simp
  | cons a rest ih =>
    have harith : (a :: rest).length + k = (rest.length + k) + 1 := by
      simp only [List.length_cons]
      omega
    rw [List.cons_append, harith, parse_build_metadata_cons]
    exact ih

/-- Lines 121-131 at the start of "+" followed by a legal build-metadata text, or of the empty
text: the build metadata is read back. -/
theorem parse_build_metadata_canonical (pre build : List Char)
    (hbuild : ∀ c ∈ build, (c.isAlphanum = true ∨ c = '-' ∨ c = '.')) :
    parse_build_metadata (if build = [] then [] else '+' :: build) pre 0 =
      .ok ⟨pre, build⟩ := by
  by_cases hb : build = []
  · subst hb
    rfl
  · rw [if_neg hb]
    have htw : build.takeWhile (fun c => c != NUL) = build := by
      rw [List.takeWhile_eq_self_iff]
      intro c hc
      have := legal_ne_NUL c (hbuild c hc)
      simp [this]
    unfold parse_build_metadata
    have hpk : peek ('+' :: build) 0 = .ok '+' := rfl
    rw [hpk]
    dsimp only
    rw [if_pos (by decide)]
    simp only [List.drop_succ_cons, List.drop_zero, htw]

/-- Lines 109-131 at the start of the tail that `string()` writes after the patch number: the
prerelease and the build metadata are read back. -/
theorem parse_tags_canonical (pre build : List Char)
    (hpre : ∀ c ∈ pre, (c.isAlphanum = true ∨ c = '-' ∨ c = '.'))
    (hbuild : ∀ c ∈ build, (c.isAlphanum = true ∨ c = '-' ∨ c = '.')) :
    parse_tags ((if pre = [] then [] else '-' :: pre) ++
        (if build = [] then [] else '+' :: build)) 0 = .ok ⟨pre, build⟩ := by
  by_cases hp : pre = []
  · subst hp
    rw [if_pos rfl, List.nil_append]
    have hhead : ∀ c, peek (if build = [] then [] else '+' :: build) 0 = .ok c →
        (c == '-') = false := by
      intro c hc
      by_cases hb : build = []
      · rw [if_pos hb] at hc
        injection hc with hc
        rw [← hc]
        decide
      · rw [if_neg hb] at hc
        injection hc with hc
        rw [← hc]
        decide
    unfold parse_tags
    cases hpk : peek (if build = [] then [] else '+' :: build) 0 with
    | error e =>
      exfalso
      by_cases hb : build = []
      · rw [if_pos hb] at hpk
        cases hpk
      · rw [if_neg hb] at hpk
        cases hpk
    | ok c =>
      dsimp only
      rw [hhead c hpk]
      simp only [Bool.false_eq_true, if_false]
      exact parse_build_metadata_canonical [] build hbuild
  · rw [if_neg hp]
    have htw : (pre ++ (if build = [] then [] else '+' :: build)).takeWhile
        (fun c => c != NUL && c != '+') = pre := by
      have hall : ∀ c ∈ pre, (c != NUL && c != '+') = true := by
        intro c hc
        have h1 := legal_ne_NUL c (hpre c hc)
        have h2 := legal_ne_plus c (hpre c hc)
        simp [h1, h2]
      rw [List.takeWhile_append_of_pos hall]
      by_cases hb : build = []
      · rw [if_pos hb]
        simp
      · rw [if_neg hb]
        simp
    unfold parse_tags
    have hpk : peek ('-' :: pre ++ (if build = [] then [] else '+' :: build)) 0 = .ok '-' := rfl
    rw [hpk]
    dsimp only
    rw [if_pos (by decide)]
    simp only [List.cons_append, List.drop_succ_cons, List.drop_zero, htw]
    have harith : 0 + 1 + pre.length = (pre.length + 0) + 1 := by omega
    rw [harith, parse_build_metadata_cons]
    have hshift := parse_build_metadata_append pre
      (if build = [] then [] else '+' :: build) pre 0
    rw [Nat.add_zero] at hshift
    rw [hshift]
    exact parse_build_metadata_canonical pre build hbuild

theorem parse_tags_append (A R : List Char) (k : Nat) :
    parse_tags (A ++ R) (A.length + k) = parse_tags R k := by
  induction A with
  | nil => simp
  | cons a rest ih =>
    have harith : (a :: rest).length + k = (rest.length + k) + 1 := by
      simp only [List.length_cons]
      omega
    rw [List.cons_append, harith, parse_tags_cons]
    exact ih

/-- C18: for a version whose major, minor and patch are each between 0 and 9 and not all zero,
and whose prerelease and build metadata consist of alphanumerics, `-` and `.` only, the
constructor from text applied to `string()` returns exactly that version, all five fields
included. -/
theorem C18_single_digit_round_trip (v : version)
    (hM : 0 ≤ v.major ∧ v.major ≤ 9) (hm : 0 ≤ v.minor ∧ v.minor ≤ 9)
    (hp : 0 ≤ v.patch ∧ v.patch ≤ 9)
    (hnz : ¬ (v.major = 0 ∧ v.minor = 0 ∧ v.patch = 0))
    (hpre : ∀ c ∈ v.prerelease, (c.isAlphanum = true ∨ c = '-' ∨ c = '.'))
    (hbuild : ∀ c ∈ v.build_metadata, (c.isAlphanum = true ∨ c = '-' ∨ c = '.')) :
    version.of_text v.string = .ok v := by
  obtain ⟨dM, hsM, hdM, hvM⟩ := to_string_single_digit v.major hM.1 hM.2
  obtain ⟨dm, hsm, hdm, hvm⟩ := to_string_single_digit v.minor hm.1 hm.2
  obtain ⟨dp, hsp, hdp, hvp⟩ := to_string_single_digit v.patch hp.1 hp.2
  have hstr : v.string = [dM, '.', dm, '.', dp] ++
      ((if v.prerelease = [] then [] else '-' :: v.prerelease) ++
        (if v.build_metadata = [] then [] else '+' :: v.build_metadata)) := by
    unfold version.string
    rw [hsM, hsm, hsp]
    cases v.prerelease <;> cases v.build_metadata <;> simp
  have hT : ∀ c, ((if v.prerelease = [] then [] else '-' :: v.prerelease) ++
      (if v.build_metadata = [] then [] else '+' :: v.build_metadata)).head? = some c →
      c.isDigit = false := by
    intro c hc
    by_cases h1 : v.prerelease = []
    · by_cases h2 : v.build_metadata = []
      · rw [if_pos h1, if_pos h2] at hc
        cases hc
      · rw [if_pos h1, if_neg h2] at hc
        simp only [List.nil_append, List.head?_cons, Option.some.injEq] at hc
        rw [← hc]
        decide
    · rw [if_neg h1] at hc
      simp only [List.cons_append, List.head?_cons, Option.some.injEq] at hc
      rw [← hc]
      decide
  have hnum := parse_numbers_single_digits dM dm dp _ hdM hdm hdp
    (by rw [hvM]; exact hM) (by rw [hvm]; exact hm) (by rw [hvp]; exact hp) hT
  have htags := parse_tags_canonical v.prerelease v.build_metadata hpre hbuild
  have hver : v.verify = .ok () :=
    (verify_eq_ok_iff v).2 ⟨hnz, hM.1, hm.1, hp.1, hpre, hbuild⟩
  rw [hstr]
  unfold version.of_text
  have hshape : ([dM, '.', dm, '.', dp] ++
      ((if v.prerelease = [] then [] else '-' :: v.prerelease) ++
        (if v.build_metadata = [] then [] else '+' :: v.build_metadata))) =
      dM :: '.' :: dm :: '.' :: dp ::
        ((if v.prerelease = [] then [] else '-' :: v.prerelease) ++
          (if v.build_metadata = [] then [] else '+' :: v.build_metadata)) := rfl
  rw [hshape, hnum]
  dsimp only
  have hshift := parse_tags_append [dM, '.', dm, '.', dp]
    ((if v.prerelease = [] then [] else '-' :: v.prerelease) ++
      (if v.build_metadata = [] then [] else '+' :: v.build_metadata)) 0
  rw [hshape] at hshift
  have hfive : 4 + 1 = [dM, '.', dm, '.', dp].length + 0 := rfl
  rw [hfive, hshift, htags]
  dsimp only
  rw [hvM, hvm, hvp]
  have hv : (⟨v.major, v.minor, v.patch, v.prerelease, v.build_metadata⟩ : version) = v := rfl
  rw [hv, hver]

/-- C18, at the version 1.2.3-beta+20230113000000 of the test `ConvertsToString`. -/
theorem C18_single_digit_round_trip_witness :
    version.of_text (version.string ⟨1, 2, 3, "beta".toList, "20230113000000".toList⟩) =
      .ok ⟨1, 2, 3, "beta".toList, "20230113000000".toList⟩ :=
  C18_single_digit_round_trip ⟨1, 2, 3, "beta".toList, "20230113000000".toList⟩
    (by decide) (by decide) (by decide) (by decide) (by decide) (by decide)

end semverpp
